import Mathlib

/-!
# Verification of the SX copy market-maker bot

A shallow embedding of the order-copy pipeline of the `sx-copy-market-maker`
repository, together with proofs of the specification's claims about it.

Conventions used throughout the embedding:

* `BigNumber` values (stakes, odds, fill amounts) are arbitrary-precision
  integers in the source; they are modelled as `Nat` where the source only
  ever holds non-negative values, and as `Int` where intermediate values can
  be negative (odds adjustment).
* Configured percentages are numbers in the source; the code immediately
  converts them with `Math.round(pct * 100)`.  We model the configured value
  as an integer percentage, so `Math.round(pct * 100) = pct * 100` exactly.
* Thrown exceptions are modelled with `Except String`; the `try/catch` in
  `OrderCopyEngine.copyOrder` turns a propagated error into a failed
  `CopyResult`.  The `ethers` `BigNumber.div` throws on division by zero;
  functions that can hit it return `Option`.
* Network and signing effects (`signOrder`, `postOrders`, market lookups,
  filter evaluation) are modelled as oracle parameters carrying the outcome
  of the call.
* JavaScript `Map`s are modelled as association lists in insertion order
  with unique keys, and `Set`s as lists with set-like insertion.
-/

deriving instance DecidableEq for Except

namespace SxBot

/-! ## Quantization and adjustment library
(`src/utils/validation.ts`, `src/utils/odds.ts`, `src/utils/stake.ts`) -/

/-- `CONSTANTS.ODDS_PRECISION` from `src/config/constants.ts`: odds are
fixed-point integers scaled by `10 ^ 20`. -/
def ODDS_PRECISION : Nat := 20

/-- The maximum valid odds value, `10 ^ ODDS_PRECISION = 10 ^ 20`
(100% implied probability). -/
def oddsMax : Int := 10 ^ ODDS_PRECISION

/-- `CONSTANTS.DEFAULT_ORDER_EXPIRY` (deprecated field, year 2040). -/
def DEFAULT_ORDER_EXPIRY : Nat := 2209006800

/-- `CONSTANTS.DEFAULT_API_EXPIRY_OFFSET` (24 hours in seconds). -/
def DEFAULT_API_EXPIRY_OFFSET : Nat := 24 * 60 * 60

/-- `isValidOdds` from `src/utils/validation.ts`: odds must lie in
`[0, 10 ^ 20]`. -/
def isValidOdds (odds : Int) : Bool :=
  0 ≤ odds && odds ≤ oddsMax

/-- The ladder rung size `BigNumber.from(10).pow(15).mul(stepSize)` used by
`isOnOddsLadder` / `roundOddsToLadder` in `src/utils/validation.ts`. -/
def ladderStep (stepSize : Nat) : Int := 10 ^ 15 * stepSize

/-- `isOnOddsLadder` from `src/utils/validation.ts`.  The source wraps the
computation in `try/catch` returning `false`, which fires exactly when
`BigNumber.mod` divides by zero (`stepSize = 0`). -/
def isOnOddsLadder (odds : Int) (stepSize : Nat) : Bool :=
  if stepSize = 0 then false
  else odds.tmod (ladderStep stepSize) = 0

/-- `roundOddsToLadder` from `src/utils/validation.ts`: floor-divide by the
rung size and re-multiply (`oddsBN.div(step).mul(step)`).  `BigNumber.div`
truncates toward zero (`Int.tdiv`) and throws on a zero rung size
(`stepSize = 0`), modelled as `none`. -/
def roundOddsToLadder (odds : Int) (stepSize : Nat) : Option Int :=
  if stepSize = 0 then none
  else some ((odds.tdiv (ladderStep stepSize)) * ladderStep stepSize)

/-- `adjustOddsByPercentage` from `src/utils/odds.ts`.  `percentage` is the
configured integer percentage; the source computes
`factorBps = 10000 + Math.round(percentage * 100)`. -/
def adjustOddsByPercentage (makerOdds : Int) (percentage : Int)
    (ensureLadder : Bool) (stepSize : Nat) : Except String Int :=
  if !isValidOdds makerOdds then .error "Invalid maker odds"
  else
    let factorBps : Int := 10000 + percentage * 100
    let adjusted : Int := (makerOdds * factorBps).tdiv 10000
    match (if ensureLadder then roundOddsToLadder adjusted stepSize else some adjusted) with
    | none => .error "division by zero"
    | some result =>
      if !isValidOdds result then .error "Adjusted odds out of valid range"
      else .ok result

/-- `adjustOddsBySteps` from `src/utils/odds.ts`: move `steps` whole ladder
rungs (positive steps add, negative steps subtract), rejecting negative or
out-of-range results. -/
def adjustOddsBySteps (makerOdds : Int) (steps : Int) (stepSize : Nat) :
    Except String Int :=
  if !isValidOdds makerOdds then .error "Invalid maker odds"
  else
    let stepValue : Int := 10 ^ 15 * stepSize
    let adjustmentAmount : Int := stepValue * |steps|
    let adjusted : Int :=
      if 0 ≤ steps then makerOdds + adjustmentAmount else makerOdds - adjustmentAmount
    if adjusted < 0 then .error "Adjusted odds would be negative"
    else if !isValidOdds adjusted then .error "Adjusted odds out of valid range"
    else .ok adjusted

/-- `adjustStakeByPercentage` from `src/utils/stake.ts`.  `percentage` is the
configured integer percentage (`pctBps = Math.round(percentage * 100)`);
percentages outside `[0, 1000]` throw. -/
def adjustStakeByPercentage (originalStake : Nat) (percentage : Int) :
    Except String Nat :=
  if percentage < 0 || 1000 < percentage then
    .error "Percentage must be between 0 and 1000"
  else
    let pctBps : Nat := (percentage * 100).toNat
    .ok (originalStake * pctBps / 10000)

/-- Result record of `validateStakeLimits` from `src/utils/stake.ts`. -/
structure StakeValidation where
  valid : Bool
  reason : Option String := none
  clamped : Option Nat := none
deriving DecidableEq, Repr

/-- `validateStakeLimits` from `src/utils/stake.ts`: below-minimum and
above-maximum stakes are reported invalid together with the clamp value. -/
def validateStakeLimits (stake minStake maxStake : Nat) : StakeValidation :=
  if stake < minStake then
    { valid := false
      reason := some ("Stake " ++ toString stake ++ " is below minimum " ++ toString minStake)
      clamped := some minStake }
  else if maxStake < stake then
    { valid := false
      reason := some ("Stake " ++ toString stake ++ " exceeds maximum " ++ toString maxStake)
      clamped := some maxStake }
  else
    { valid := true }

/-! ## Orders and the Risk Manager ledger (`src/services/RiskManager.ts`) -/

/-- The SX order object (`src/types/sx.ts`), restricted to the fields the
pipeline reads.  `BigNumber`-string amounts are modelled as `Nat`, odds as
`Int`. -/
structure Order where
  orderHash : String
  marketHash : String
  fillAmount : Nat
  pendingFillAmount : Nat
  totalBetSize : Nat
  percentageOdds : Int
  isMakerBettingOutcomeOne : Bool
  sportXeventId : String
deriving DecidableEq, Repr

/-- `Map.get`: the value stored at `key`, if any. -/
def mapGet {α : Type} : List (String × α) → String → Option α
  | [], _ => none
  | (k, v) :: rest, key => if k = key then some v else mapGet rest key

/-- `Map.set`: replace the entry for `key` in place, or append a new entry. -/
def mapSet {α : Type} : List (String × α) → String → α → List (String × α)
  | [], key, v => [(key, v)]
  | (k, w) :: rest, key, v =>
    if k = key then (key, v) :: rest else (k, w) :: mapSet rest key v

/-- `Map.delete`: remove the entry for `key`. -/
def mapDelete {α : Type} : List (String × α) → String → List (String × α)
  | [], _ => []
  | (k, w) :: rest, key => if k = key then rest else (k, w) :: mapDelete rest key

/-- The private state of `RiskManager` (`src/services/RiskManager.ts`):
`trackedOrders` (own live orders by hash), `ordersByOriginal`
(source hash → derived hash) and `originalOrderHistory` (every source hash
ever copied). -/
structure RiskState where
  trackedOrders : List (String × Order)
  ordersByOriginal : List (String × String)
  originalOrderHistory : List String
deriving DecidableEq, Repr

namespace RiskManager

/-- `RiskManager.recordOrderMapping`: always add the source hash to
`originalOrderHistory`; record the source → derived mapping only if none
exists yet (a duplicate call only logs). -/
def recordOrderMapping (st : RiskState) (order : Order)
    (originalOrderHash : String) : RiskState :=
  let history :=
    if originalOrderHash ∈ st.originalOrderHistory then st.originalOrderHistory
    else originalOrderHash :: st.originalOrderHistory
  match mapGet st.ordersByOriginal originalOrderHash with
  | some _ => { st with originalOrderHistory := history }
  | none =>
    { st with
      originalOrderHistory := history
      ordersByOriginal := mapSet st.ordersByOriginal originalOrderHash order.orderHash }

/-- `RiskManager.recordOrder`: track an own order by its hash. -/
def recordOrder (st : RiskState) (order : Order) : RiskState :=
  { st with trackedOrders := mapSet st.trackedOrders order.orderHash order }

/-- The loop in `RiskManager.removeOrder` that deletes the first
`ordersByOriginal` entry whose derived hash equals `target` and breaks. -/
def eraseFirstMappingTo : List (String × String) → String → List (String × String)
  | [], _ => []
  | (o, c) :: rest, target =>
    if c = target then rest else (o, c) :: eraseFirstMappingTo rest target

/-- `RiskManager.removeOrder`: drop a tracked order (no-op when untracked)
and the first source mapping pointing at it.  `originalOrderHistory` is not
touched. -/
def removeOrder (st : RiskState) (orderHash : String) : RiskState :=
  match mapGet st.trackedOrders orderHash with
  | none => st
  | some _ =>
    { st with
      trackedOrders := mapDelete st.trackedOrders orderHash
      ordersByOriginal := eraseFirstMappingTo st.ordersByOriginal orderHash }

/-- `RiskManager.isOrderCopied`: membership in `originalOrderHistory`. -/
def isOrderCopied (st : RiskState) (orderHash : String) : Bool :=
  orderHash ∈ st.originalOrderHistory

/-- `RiskManager.findCopiedOrder`: look up the derived hash
(`ordersByOriginal.get(h) || ""`, defaulting to the empty string) and return
the tracked order stored under it. -/
def findCopiedOrder (st : RiskState) (originalOrderHash : String) : Option Order :=
  let copiedHash := (mapGet st.ordersByOriginal originalOrderHash).getD ""
  mapGet st.trackedOrders copiedHash

/-- `RiskManager.clear`: clears `trackedOrders` and `ordersByOriginal` but
not `originalOrderHistory`. -/
def clear (st : RiskState) : RiskState :=
  { st with trackedOrders := [], ordersByOriginal := [] }

end RiskManager

/-- The public mutating operations of `RiskManager`, as a command type. -/
inductive RiskOp
  | recordOrderMapping (order : Order) (originalOrderHash : String)
  | recordOrder (order : Order)
  | removeOrder (orderHash : String)
  | clear
deriving DecidableEq, Repr

/-- Interpret one `RiskOp` on the ledger state. -/
def applyRiskOp (st : RiskState) : RiskOp → RiskState
  | .recordOrderMapping order h => RiskManager.recordOrderMapping st order h
  | .recordOrder order => RiskManager.recordOrder st order
  | .removeOrder h => RiskManager.removeOrder st h
  | .clear => RiskManager.clear st

/-- Interpret a sequence of `RiskOp`s. -/
def applyRiskOps (st : RiskState) : List RiskOp → RiskState
  | [] => st
  | op :: ops => applyRiskOps (applyRiskOp st op) ops

/-! ## Order Copy Engine (`src/services/OrderCopyEngine.ts`) -/

/-- Configured odds adjustment method (`"percentage" | "fixed" | "none"`). -/
inductive OddsAdjustmentMethod
  | percentage
  | fixed
  | none
deriving DecidableEq, Repr

/-- Configured stake adjustment method (`"percentage" | "fixed" | "copy"`). -/
inductive StakeAdjustmentMethod
  | percentage
  | fixed
  | copy
deriving DecidableEq, Repr

/-- The `oddsAdjustment` part of the copying configuration. -/
structure OddsAdjustmentConfig where
  method : OddsAdjustmentMethod
  value : Int
  ensureLadderCompliance : Bool
deriving DecidableEq, Repr

/-- The `stakeAdjustment` part of the copying configuration.  Stakes are in
base-token minor units. -/
structure StakeAdjustmentConfig where
  method : StakeAdjustmentMethod
  value : Int
  minStake : Nat
  maxStake : Nat
deriving DecidableEq, Repr

/-- The `copying` configuration consumed by `OrderCopyEngine` and the bot. -/
structure CopyingConfig where
  enabled : Bool
  copyDelay : Nat
  oddsAdjustment : OddsAdjustmentConfig
  stakeAdjustment : StakeAdjustmentConfig
  autoCancelOnSource : Bool
deriving DecidableEq, Repr

/-- Exchange metadata (`/metadata`), restricted to the fields the engine
reads. -/
structure Metadata where
  executorAddress : String
  oddsLadderStepSize : Nat
deriving DecidableEq, Repr

/-- A new (derived) order before signing (`src/types/sx.ts`). -/
structure NewOrder where
  marketHash : String
  maker : String
  totalBetSize : Nat
  percentageOdds : Int
  expiry : Nat
  apiExpiry : Nat
  baseToken : String
  executor : String
  salt : Nat
  isMakerBettingOutcomeOne : Bool
deriving DecidableEq, Repr

/-- Modification summary attached to a copy result
(`OrderModification` in `src/types/index.ts`). -/
structure OrderModification where
  originalOrderHash : String
  monitoredWallet : String
  originalOdds : Int
  adjustedOdds : Int
  originalStake : Nat
  adjustedStake : Nat
  modifications : List String
deriving DecidableEq, Repr

/-- The `data` part of the exchange's order-post response. -/
structure OrderResponseData where
  orders : List String
  statuses : List String
  inserted : Nat
deriving DecidableEq, Repr

/-- `CopyResult` from `src/types/index.ts`. -/
structure CopyResult where
  success : Bool
  orderHash : Option String
  error : Option String
  originalOrder : Order
  copiedOrder : Option Order
  modifications : Option OrderModification
deriving DecidableEq, Repr

/-- Oracle for the effectful steps of one `copyOrder` run: the generated
salt, the current time, and the outcomes of the signing call and of the
order submission (errors model thrown exceptions). -/
structure CopyEffects where
  salt : Nat
  now : Nat
  signOutcome : Except String String
  submitOutcome : Except String OrderResponseData
deriving DecidableEq, Repr

namespace OrderCopyEngine

/-- A failed `CopyResult` carrying only the error and the original order. -/
def failResult (originalOrder : Order) (e : String) : CopyResult :=
  { success := false
    orderHash := none
    error := some e
    originalOrder := originalOrder
    copiedOrder := none
    modifications := none }

/-- `OrderCopyEngine.adjustOdds`: apply the configured method, then
double-check ladder compliance if required. -/
def adjustOdds (cfg : OddsAdjustmentConfig) (ladderStepSize : Nat)
    (originalOdds : Int) : Except String Int :=
  let step1 : Except String Int :=
    match cfg.method with
    | .percentage =>
      adjustOddsByPercentage originalOdds cfg.value cfg.ensureLadderCompliance ladderStepSize
    | .fixed => adjustOddsBySteps originalOdds cfg.value ladderStepSize
    | .none => .ok originalOdds
  match step1 with
  | .error e => .error e
  | .ok adjustedOdds =>
    if cfg.ensureLadderCompliance && !isOnOddsLadder adjustedOdds ladderStepSize then
      match roundOddsToLadder adjustedOdds ladderStepSize with
      | Option.none => .error "division by zero"
      | Option.some r => .ok r
    else .ok adjustedOdds

/-- The `switch` in `OrderCopyEngine.adjustStake` that applies the
configured method (`"fixed"` uses `minStake` as the fixed amount; the
default branch copies the original stake). -/
def applyStakeAdjustmentMethod (cfg : StakeAdjustmentConfig)
    (originalStake : Nat) : Except String Nat :=
  match cfg.method with
  | .percentage => adjustStakeByPercentage originalStake cfg.value
  | .fixed => .ok cfg.minStake
  | .copy => .ok originalStake

/-- `OrderCopyEngine.adjustStake`: apply the method, then clamp to the
configured `[minStake, maxStake]` whenever validation fails with a clamp
value attached. -/
def adjustStake (cfg : StakeAdjustmentConfig) (originalStake : Nat) :
    Except String Nat :=
  match applyStakeAdjustmentMethod cfg originalStake with
  | .error e => .error e
  | .ok adjustedStake =>
    let validation := validateStakeLimits adjustedStake cfg.minStake cfg.maxStake
    if !validation.valid && validation.clamped.isSome then
      .ok (validation.clamped.getD adjustedStake)
    else .ok adjustedStake

/-- `OrderCopyEngine.getModificationList`: human-readable list of what
changed between the original and the derived order. -/
def getModificationList (original : Order) (modified : NewOrder)
    (monitoredWallet : String) : List String :=
  let oddsMod : List String :=
    if original.percentageOdds ≠ modified.percentageOdds then
      ["Odds: " ++ toString original.percentageOdds ++ " -> " ++
        toString modified.percentageOdds]
    else []
  let stakeMod : List String :=
    if original.totalBetSize ≠ modified.totalBetSize then
      ["Stake: " ++ toString original.totalBetSize ++ " -> " ++
        toString modified.totalBetSize]
    else []
  let makerMod : List String :=
    if monitoredWallet ≠ modified.maker then
      ["Maker: " ++ monitoredWallet ++ " -> " ++ modified.maker]
    else []
  let mods := oddsMod ++ stakeMod ++ makerMod
  if mods = [] then ["No modifications (exact copy)"] else mods

/-- `OrderCopyEngine.copyOrder`: the Transform & Submit stage.  Checks the
enabled flag and initialization, adjusts odds and stake, validates the
stake, builds and signs the derived order, submits it, and reports a
structured `CopyResult`.  The optional copy delay only suspends and is
dropped.  Note the signature: the function never touches the `RiskState`
ledger. -/
def copyOrder (cfg : CopyingConfig) (metadata : Option Metadata)
    (ladderStepSize : Nat) (makerAddress baseToken : String)
    (eff : CopyEffects) (originalOrder : Order) (monitoredWallet : String) :
    CopyResult :=
  if !cfg.enabled then failResult originalOrder "Order copying is disabled"
  else
    match metadata with
    | Option.none => failResult originalOrder "Engine not initialized"
    | Option.some md =>
      match adjustOdds cfg.oddsAdjustment ladderStepSize originalOrder.percentageOdds with
      | .error e => failResult originalOrder e
      | .ok adjustedOdds =>
        match adjustStake cfg.stakeAdjustment originalOrder.totalBetSize with
        | .error e => failResult originalOrder e
        | .ok adjustedStake =>
          let stakeValidation :=
            validateStakeLimits adjustedStake cfg.stakeAdjustment.minStake
              cfg.stakeAdjustment.maxStake
          if !stakeValidation.valid then
            failResult originalOrder (stakeValidation.reason.getD "")
          else
            let newOrder : NewOrder :=
              { marketHash := originalOrder.marketHash
                maker := makerAddress
                totalBetSize := adjustedStake
                percentageOdds := adjustedOdds
                expiry := DEFAULT_ORDER_EXPIRY
                apiExpiry := eff.now + DEFAULT_API_EXPIRY_OFFSET
                baseToken := baseToken
                executor := md.executorAddress
                salt := eff.salt
                isMakerBettingOutcomeOne := originalOrder.isMakerBettingOutcomeOne }
            match eff.signOutcome with
            | .error e => failResult originalOrder e
            | .ok _signature =>
              let modifications : OrderModification :=
                { originalOrderHash := originalOrder.orderHash
                  monitoredWallet := monitoredWallet
                  originalOdds := originalOrder.percentageOdds
                  adjustedOdds := adjustedOdds
                  originalStake := originalOrder.totalBetSize
                  adjustedStake := adjustedStake
                  modifications := getModificationList originalOrder newOrder monitoredWallet }
              match eff.submitOutcome with
              | .error e => failResult originalOrder e
              | .ok response =>
                if response.inserted = 0 then
                  { success := false
                    orderHash := none
                    error := some ("Order submission failed: " ++ response.statuses.headD "")
                    originalOrder := originalOrder
                    copiedOrder := none
                    modifications := some modifications }
                else
                  let copiedOrderHash := response.orders.headD ""
                  let copiedOrder : Order :=
                    { orderHash := copiedOrderHash
                      marketHash := newOrder.marketHash
                      fillAmount := 0
                      pendingFillAmount := 0
                      totalBetSize := newOrder.totalBetSize
                      percentageOdds := newOrder.percentageOdds
                      isMakerBettingOutcomeOne := newOrder.isMakerBettingOutcomeOne
                      sportXeventId := originalOrder.sportXeventId }
                  { success := true
                    orderHash := some copiedOrderHash
                    error := none
                    originalOrder := originalOrder
                    copiedOrder := some copiedOrder
                    modifications := some modifications }

end OrderCopyEngine

/-! ## Bot event handlers (`src/index.ts`) -/

/-- A cancellation request submitted to the exchange, reduced to the order
hashes being cancelled. -/
structure CancelRequest where
  orderHashes : List String
deriving DecidableEq, Repr

/-- The immutable context `SXMarketMakingBot` passes to the copy engine. -/
structure BotEnv where
  cfg : CopyingConfig
  metadata : Option Metadata
  ladderStepSize : Nat
  makerAddress : String
  baseToken : String
deriving DecidableEq, Repr

/-- One delivery of an `orderDetected` event, bundled with the oracle for
the effectful calls the resulting `copyOrder` run would make. -/
structure DetectEvent where
  order : Order
  monitoredWallet : String
  eff : CopyEffects
deriving DecidableEq, Repr

namespace SXMarketMakingBot

/-- `SXMarketMakingBot.handleOrderCancelled` (`src/index.ts`): when
auto-cancel is configured and a copied order is found for the cancelled
source hash, sign and submit one cancellation for the copied order's hash;
otherwise do nothing.  Signing inputs (salt, timestamp, signature) are
omitted; the request is reduced to the hash list. -/
def handleOrderCancelled (autoCancelOnSource : Bool) (st : RiskState)
    (orderHash : String) : Option CancelRequest :=
  if !autoCancelOnSource then none
  else
    match RiskManager.findCopiedOrder st orderHash with
    | none => none
    | some copiedOrder => some { orderHashes := [copiedOrder.orderHash] }

/-- The `copyEngine.copyOrder` call made by `handleOrderDetected`. -/
def copyResultFor (env : BotEnv) (e : DetectEvent) : CopyResult :=
  OrderCopyEngine.copyOrder env.cfg env.metadata env.ladderStepSize
    env.makerAddress env.baseToken e.eff e.order e.monitoredWallet

/-- `SXMarketMakingBot.handleOrderDetected` (`src/index.ts`): skip the event
if the source hash was already copied (`isOrderCopied`); otherwise run the
copy engine and record the mapping only on a successful result that carries
the copied order and the modification summary. -/
def handleOrderDetected (env : BotEnv) (st : RiskState) (e : DetectEvent) :
    RiskState :=
  if RiskManager.isOrderCopied st e.order.orderHash then st
  else
    let result := copyResultFor env e
    match result.success, result.copiedOrder, result.modifications with
    | true, some copiedOrder, some _ =>
      RiskManager.recordOrderMapping st copiedOrder e.order.orderHash
    | _, _, _ => st

/-- Process a sequence of detected-order events. -/
def runDetected (env : BotEnv) (st : RiskState) : List DetectEvent → RiskState
  | [] => st
  | e :: es => runDetected env (handleOrderDetected env st e) es

/-- Whether `handleOrderDetected` invokes the Transform stage for this
event, i.e. the event survives the `isOrderCopied` check. -/
def transformInvoked (st : RiskState) (e : DetectEvent) : Bool :=
  !RiskManager.isOrderCopied st e.order.orderHash

/-- Whether this event creates a derived instruction: the Transform stage
is invoked and the submission succeeds. -/
def derivedCreated (env : BotEnv) (st : RiskState) (e : DetectEvent) : Bool :=
  transformInvoked st e && (copyResultFor env e).success

/-- How many events for source hash `h` in the sequence invoke the
Transform stage. -/
def invokedCount (env : BotEnv) (st : RiskState) (h : String) :
    List DetectEvent → Nat
  | [] => 0
  | e :: es =>
    (if e.order.orderHash = h ∧ transformInvoked st e = true then 1 else 0) +
      invokedCount env (handleOrderDetected env st e) h es

/-- How many events for source hash `h` in the sequence create a derived
instruction. -/
def createdCount (env : BotEnv) (st : RiskState) (h : String) :
    List DetectEvent → Nat
  | [] => 0
  | e :: es =>
    (if e.order.orderHash = h ∧ derivedCreated env st e = true then 1 else 0) +
      createdCount env (handleOrderDetected env st e) h es

end SXMarketMakingBot

/-! ## Order Monitor (`src/services/OrderMonitor.ts`) -/

/-- Order status carried by a feed update (`src/types/sx.ts`). -/
inductive OrderStatus
  | ACTIVE
  | INACTIVE
  | FILLED
deriving DecidableEq, Repr

/-- One order update from the feed: the order fields, the status, and the
source-reported update time (`update.updateTime`, destructured away from the
order in the source). -/
structure OrderUpdate where
  order : Order
  status : OrderStatus
  updateTime : Nat
deriving DecidableEq, Repr

namespace OrderMonitor

/-- The events `OrderMonitor` can emit for one processed update. -/
inductive MonitorEvent
  | orderDetected (order : Order)
  | ownOrderDetected (order : Order)
  | orderCancelled (orderHash : String)
  | ownOrderCancelled (orderHash : String)
  | orderFilled (orderHash : String)
  | ownOrderFilled (orderHash : String)
deriving DecidableEq, Repr

/-- Is this a cancellation event (own or monitored)? -/
def MonitorEvent.isCancellation : MonitorEvent → Bool
  | .orderCancelled _ => true
  | .ownOrderCancelled _ => true
  | _ => false

/-- Is this a fill event (own or monitored)? -/
def MonitorEvent.isFillEvent : MonitorEvent → Bool
  | .orderFilled _ => true
  | .ownOrderFilled _ => true
  | _ => false

/-- Is this a detection (copy-candidate) event (own or monitored)? -/
def MonitorEvent.isDetection : MonitorEvent → Bool
  | .orderDetected _ => true
  | .ownOrderDetected _ => true
  | _ => false

/-- `OrderMonitor.handleOrderCancelled`: emit the own or monitored
cancellation event for the order's hash. -/
def handleOrderCancelled (order : Order) (monitoredWallet selfWallet : String) :
    MonitorEvent :=
  if monitoredWallet = selfWallet then .ownOrderCancelled order.orderHash
  else .orderCancelled order.orderHash

/-- `OrderMonitor.handleOrderFilled`: emit the own or monitored fill event
for the order's hash. -/
def handleOrderFilled (order : Order) (monitoredWallet selfWallet : String) :
    MonitorEvent :=
  if monitoredWallet = selfWallet then .ownOrderFilled order.orderHash
  else .orderFilled order.orderHash

/-- `OrderMonitor.handleNewOrder`: skip updates with pending fills; emit
`ownOrderDetected` for the own wallet; skip non-own updates that are already
partially filled (stale resends); otherwise apply the filters (modelled as
the oracle `passesFilters`) and emit `orderDetected` only if they pass. -/
def handleNewOrder (order : Order) (monitoredWallet selfWallet : String)
    (passesFilters : Bool) : Option MonitorEvent :=
  if order.pendingFillAmount ≠ 0 then none
  else if monitoredWallet = selfWallet then some (.ownOrderDetected order)
  else if order.fillAmount ≠ 0 then none
  else if passesFilters then some (.orderDetected order)
  else none

/-- `OrderMonitor.processOrderUpdate`: classify one update by status.  The
returned value is the event emitted for the update (`none` = skipped, no
event of any kind). -/
def processOrderUpdate (u : OrderUpdate) (monitoredWallet selfWallet : String)
    (passesFilters : Bool) : Option MonitorEvent :=
  match u.status with
  | .INACTIVE => some (handleOrderCancelled u.order monitoredWallet selfWallet)
  | .FILLED => some (handleOrderFilled u.order monitoredWallet selfWallet)
  | .ACTIVE => handleNewOrder u.order monitoredWallet selfWallet passesFilters

/-- Comparison used by `handleOrderMessage`'s
`updates.sort((a, b) => Number(a.updateTime) - Number(b.updateTime))`. -/
def updateTimeLe (a b : OrderUpdate) : Prop :=
  a.updateTime ≤ b.updateTime

instance : DecidableRel updateTimeLe :=
  fun a b => Nat.decLe a.updateTime b.updateTime

instance : IsTotal OrderUpdate updateTimeLe :=
  ⟨fun a b => Nat.le_total a.updateTime b.updateTime⟩

instance : IsTrans OrderUpdate updateTimeLe :=
  ⟨fun _ _ _ => Nat.le_trans⟩

/-- `OrderMonitor.handleOrderMessage`: the order in which one batch's
updates are passed to `processOrderUpdate` — the batch sorted ascending by
source-reported update time (a stable sort, as required of JS `sort`). -/
def handleOrderMessage (updates : List OrderUpdate) : List OrderUpdate :=
  List.insertionSort updateTimeLe updates

end OrderMonitor

/-! ## WebSocket Client (`src/services/WebSocketClient.ts`) -/

namespace WebSocketClient

/-- Observable actions of the Ably `connected`-event handler.  State writes,
logging and the attempt-counter reset are internal and omitted. -/
inductive WsAction
  | emitConnected
  | subscribeChannel (channelName : String)
deriving DecidableEq, Repr

/-- `WebSocketClient.resubscribeChannels`: re-subscribe every previously
registered channel, in registration order. -/
def resubscribeChannels (subscribedChannels : List String) : List WsAction :=
  subscribedChannels.map WsAction.subscribeChannel

/-- The Ably `connected`-event handler registered by
`setupConnectionHandlers`: it sets the connection state, logs, emits the
`"connected"` notification, resets the reconnect counter, and then calls
`resubscribeChannels()` (without awaiting it).  The returned list is the
sequence of observable actions in program order. -/
def onConnected (subscribedChannels : List String) : List WsAction :=
  WsAction.emitConnected :: resubscribeChannels subscribedChannels

end WebSocketClient

/-! ## Concrete inputs used by counterexamples and witnesses -/

/-- A tracked order whose hash is the empty string, used to exhibit the
defaulted-key lookup in `findCopiedOrder`. -/
def emptyHashOrder : Order :=
  { orderHash := ""
    marketHash := "m1"
    fillAmount := 0
    pendingFillAmount := 0
    totalBetSize := 10
    percentageOdds := 50000000000000000000
    isMakerBettingOutcomeOne := true
    sportXeventId := "e1" }

/-- A ledger state with no mapping for any source hash but a tracked order
stored under the empty-string hash. -/
def emptyHashState : RiskState :=
  { trackedOrders := [("", emptyHashOrder)]
    ordersByOriginal := []
    originalOrderHistory := [] }

/-- A ledger state holding one live mapping (`"h1"` → tracked `"c1"`) and
one dangling mapping (`"h2"` → `"dead"`, not tracked). -/
def danglingMappingState : RiskState :=
  { trackedOrders := [("c1", { emptyHashOrder with orderHash := "c1" })]
    ordersByOriginal := [("h1", "c1"), ("h2", "dead")]
    originalOrderHistory := ["h1", "h2"] }

/-- A copying configuration with adjustments disabled (`none`/`copy`) and
stake limits `[100, 1000]`. -/
def plainCopyConfig : CopyingConfig :=
  { enabled := true
    copyDelay := 0
    oddsAdjustment := { method := .none, value := 0, ensureLadderCompliance := false }
    stakeAdjustment := { method := .copy, value := 100, minStake := 100, maxStake := 1000 }
    autoCancelOnSource := true }

/-- A source order whose stake (50) is strictly below the configured
minimum stake (100) of `plainCopyConfig`. -/
def belowMinOrder : Order :=
  { orderHash := "0xsrc"
    marketHash := "0xmkt"
    fillAmount := 0
    pendingFillAmount := 0
    totalBetSize := 50
    percentageOdds := 50000000000000000000
    isMakerBettingOutcomeOne := true
    sportXeventId := "evt1" }

/-- Effect oracle for a copy run in which signing and submission both
succeed and the exchange inserts one order with hash `"0xcopy"`. -/
def okEffects : CopyEffects :=
  { salt := 7
    now := 1000
    signOutcome := .ok "sig"
    submitOutcome := .ok { orders := ["0xcopy"], statuses := ["SUCCESS"], inserted := 1 } }

/-- Exchange metadata used by the concrete runs. -/
def sampleMetadata : Metadata :=
  { executorAddress := "0xexec", oddsLadderStepSize := 125 }

/-- The copy result for `belowMinOrder` under `plainCopyConfig` with
successful effects. -/
def belowMinResult : CopyResult :=
  OrderCopyEngine.copyOrder plainCopyConfig (some sampleMetadata) 125
    "0xmaker" "0xtok" okEffects belowMinOrder "0xwallet"

/-- Bot context with `plainCopyConfig` and initialized metadata. -/
def plainEnv : BotEnv :=
  { cfg := plainCopyConfig
    metadata := some sampleMetadata
    ladderStepSize := 125
    makerAddress := "0xmaker"
    baseToken := "0xtok" }

/-- Bot context whose copying configuration is disabled. -/
def disabledEnv : BotEnv :=
  { plainEnv with cfg := { plainCopyConfig with enabled := false } }

/-- A detected-order event for source hash `"h0"`. -/
def seenEvent : DetectEvent :=
  { order := { belowMinOrder with orderHash := "h0", totalBetSize := 500 }
    monitoredWallet := "0xwallet"
    eff := okEffects }

/-- A ledger state in which source hash `"h0"` has already been copied. -/
def seenState : RiskState :=
  { trackedOrders := []
    ordersByOriginal := [("h0", "0xcopy")]
    originalOrderHistory := ["h0"] }

/-- A two-update batch arriving out of order (update times 5 then 3). -/
def sampleBatch : List OrderUpdate :=
  [ { order := { belowMinOrder with orderHash := "u5" }, status := .ACTIVE, updateTime := 5 }
  , { order := { belowMinOrder with orderHash := "u3" }, status := .INACTIVE, updateTime := 3 } ]

/-! ## Theorems -/

/-- C7: ladder quantization is idempotent — for every price `p` in
`[0, 10 ^ 20]` and every ladder step size, quantizing twice equals
quantizing once (`quantizeToLadder(quantizeToLadder(p, step), step) ==
quantizeToLadder(p, step)`, where `quantizeToLadder` is
`roundOddsToLadder`). -/
theorem roundOddsToLadder_idempotent (p : Int) (stepSize : Nat)
    (hp0 : 0 ≤ p) (hp1 : p ≤ 10 ^ 20) :
    (roundOddsToLadder p stepSize).bind (fun q => roundOddsToLadder q stepSize) =
      roundOddsToLadder p stepSize := by
  unfold roundOddsToLadder
  by_cases hs : stepSize = 0
  · simp [hs]
  · have hstep : ladderStep stepSize ≠ 0 := by
      unfold ladderStep
      have : (stepSize : Int) ≠ 0 := by exact_mod_cast hs
      positivity
    simp only [hs, if_false, Option.some_bind]
    rw [Int.mul_tdiv_cancel _ hstep]

/-- Witness for C7 at a concrete price and the default ladder step. -/
theorem roundOddsToLadder_idempotent_witness :
    (0 : Int) ≤ 50060000000000000000 ∧ (50060000000000000000 : Int) ≤ 10 ^ 20 ∧
      (roundOddsToLadder 50060000000000000000 125).bind
          (fun q => roundOddsToLadder q 125) =
        roundOddsToLadder 50060000000000000000 125 :=
  ⟨by decide, by decide,
    roundOddsToLadder_idempotent 50060000000000000000 125 (by decide) (by decide)⟩

/-- A successful `adjustOddsBySteps p s stepSize = .ok q` means the input was
valid and `q` is exactly `p` shifted by `s` whole ladder rungs. -/
theorem adjustOddsBySteps_ok {p s q : Int} {stepSize : Nat}
    (h : adjustOddsBySteps p s stepSize = .ok q) :
    isValidOdds p = true ∧ q = p + s * (10 ^ 15 * stepSize) := by
  unfold adjustOddsBySteps at h
  by_cases hv : isValidOdds p
  · refine ⟨hv, ?_⟩
    have habs :
        (if 0 ≤ s then p + 10 ^ 15 * (stepSize : Int) * |s|
         else p - 10 ^ 15 * (stepSize : Int) * |s|) = p + s * (10 ^ 15 * stepSize) := by
      rcases le_or_lt 0 s with hs | hs
      · rw [if_pos hs, abs_of_nonneg hs]; ring
      · rw [if_neg (not_le.mpr hs), abs_of_neg hs]; ring
    simp only [hv, Bool.not_true, Bool.false_eq_true, if_false] at h
    rw [habs] at h
    split_ifs at h with hneg hval
    injection h with h'
    exact h'.symm
  · simp [hv] at h

/-- C8: step-adjustment round trip — whenever `adjustOddsBySteps p s step`
and the reverse `adjustOddsBySteps q (-s) step` both pass validation, the
reverse application returns the original price `p`. -/
theorem adjustOddsBySteps_round_trip (p q r s : Int) (stepSize : Nat)
    (h1 : adjustOddsBySteps p s stepSize = .ok q)
    (h2 : adjustOddsBySteps q (-s) stepSize = .ok r) :
    r = p := by
  obtain ⟨_, hq⟩ := adjustOddsBySteps_ok h1
  obtain ⟨_, hr⟩ := adjustOddsBySteps_ok h2
  rw [hr, hq]; ring

/-- Witness for C8: one ladder rung up from 50% odds and back. -/
theorem adjustOddsBySteps_round_trip_witness :
    adjustOddsBySteps 50000000000000000000 1 125 = .ok 50125000000000000000 ∧
      adjustOddsBySteps 50125000000000000000 (-1) 125 = .ok 50000000000000000000 ∧
      (50000000000000000000 : Int) = 50000000000000000000 :=
  ⟨by decide, by decide,
    adjustOddsBySteps_round_trip 50000000000000000000 50125000000000000000
      50000000000000000000 1 125 (by decide) (by decide)⟩

/-- Every `RiskOp` preserves membership in `originalOrderHistory`: no
operation ever removes a hash from the history set. -/
theorem applyRiskOp_preserves_history {st : RiskState} {h : String}
    (hmem : h ∈ st.originalOrderHistory) (op : RiskOp) :
    h ∈ (applyRiskOp st op).originalOrderHistory := by
  cases op with
  | recordOrderMapping order h' =>
    unfold applyRiskOp RiskManager.recordOrderMapping
    cases hm : mapGet st.ordersByOriginal h' <;>
      by_cases hin : h' ∈ st.originalOrderHistory <;>
        simp_all
  | recordOrder order => simpa [applyRiskOp, RiskManager.recordOrder] using hmem
  | removeOrder h' =>
    unfold applyRiskOp RiskManager.removeOrder
    cases hm : mapGet st.trackedOrders h' <;> simp_all
  | clear => simpa [applyRiskOp, RiskManager.clear] using hmem

/-- C9: once `recordOrderMapping` has run for a source hash `h`, every
subsequent sequence of ledger operations — including `removeOrder` and
`clear` — leaves `h` in the original-order history, so `isOrderCopied h`
stays `true` for the remainder of the process lifetime. -/
theorem isOrderCopied_permanent (st : RiskState) (order : Order) (h : String)
    (ops : List RiskOp) :
    RiskManager.isOrderCopied
      (applyRiskOps (RiskManager.recordOrderMapping st order h) ops) h = true := by
  have hrec : h ∈ (RiskManager.recordOrderMapping st order h).originalOrderHistory := by
    unfold RiskManager.recordOrderMapping
    cases hm : mapGet st.ordersByOriginal h <;>
      by_cases hin : h ∈ st.originalOrderHistory <;>
        simp_all
  suffices H : ∀ (ops : List RiskOp) (st' : RiskState),
      h ∈ st'.originalOrderHistory →
      RiskManager.isOrderCopied (applyRiskOps st' ops) h = true by
    exact H ops _ hrec
  intro ops
  induction ops with
  | nil =>
    intro st' hmem
    simpa [applyRiskOps, RiskManager.isOrderCopied] using hmem
  | cons op rest ih =>
    intro st' hmem
    exact ih _ (applyRiskOp_preserves_history hmem op)

/-- C10 counterexample: `findCopiedOrder` does not require a mapping to
exist — with no mapping for source hash `"h1"` (`ordersByOriginal` lookup is
`none`) the lookup key defaults to `""` and a tracked order with the empty
hash is returned, refuting the claimed "if and only if". -/
theorem findCopiedOrder_no_mapping_counterexample :
    RiskManager.findCopiedOrder emptyHashState "h1" = some emptyHashOrder ∧
      mapGet emptyHashState.ordersByOriginal "h1" = none := by
  exact ⟨rfl, rfl⟩

/-- C10 (amended): provided no tracked order is stored under the empty
string — the default lookup key — `findCopiedOrder` returns a derived order
iff a mapping exists for the source hash and the mapped derived hash is
currently tracked; and whenever the mapped derived order is not tracked,
`findCopiedOrder` returns `undefined` and the cascading cancellation issues
no cancel request. -/
theorem findCopiedOrder_spec (st : RiskState) (h : String) (b : Bool)
    (hempty : mapGet st.trackedOrders "" = none) :
    (∀ o : Order,
        RiskManager.findCopiedOrder st h = some o ↔
          ∃ d, mapGet st.ordersByOriginal h = some d ∧
            mapGet st.trackedOrders d = some o) ∧
    (∀ d, mapGet st.ordersByOriginal h = some d →
        mapGet st.trackedOrders d = none →
        RiskManager.findCopiedOrder st h = none ∧
          SXMarketMakingBot.handleOrderCancelled b st h = none) := by
  constructor
  · intro o
    unfold RiskManager.findCopiedOrder
    cases hm : mapGet st.ordersByOriginal h with
    | none => simp [hm, hempty]
    | some d => simp [hm]
  · intro d hm hd
    have hfind : RiskManager.findCopiedOrder st h = none := by
      unfold RiskManager.findCopiedOrder
      simp [hm, hd]
    refine ⟨hfind, ?_⟩
    unfold SXMarketMakingBot.handleOrderCancelled
    cases b <;> simp [hfind]

/-- Witness for C10 at the dangling-mapping state: the derived hash `"dead"`
is mapped but not tracked, so lookup and cascade both come up empty. -/
theorem findCopiedOrder_spec_witness :
    mapGet danglingMappingState.trackedOrders "" = none ∧
      mapGet danglingMappingState.ordersByOriginal "h2" = some "dead" ∧
      mapGet danglingMappingState.trackedOrders "dead" = none ∧
      RiskManager.findCopiedOrder danglingMappingState "h2" = none ∧
      SXMarketMakingBot.handleOrderCancelled true danglingMappingState "h2" = none :=
  ⟨by decide, by decide, by decide,
    (findCopiedOrder_spec danglingMappingState "h2" true (by decide)).2 "dead"
      (by decide) (by decide)⟩

/-- C2 counterexample: under `plainCopyConfig` the stake produced by the
configured adjustment method (50) is strictly below the configured minimum
stake (100), yet the copy operation does not fail — `adjustStake` clamps the
stake up to the minimum and the order is signed and submitted with stake
100. -/
theorem stakeBelowMinimum_counterexample :
    OrderCopyEngine.applyStakeAdjustmentMethod plainCopyConfig.stakeAdjustment
        belowMinOrder.totalBetSize = .ok 50 ∧
      belowMinOrder.totalBetSize < plainCopyConfig.stakeAdjustment.minStake ∧
      belowMinResult.success = true ∧
      belowMinResult.copiedOrder.map Order.totalBetSize =
        some plainCopyConfig.stakeAdjustment.minStake := by
  decide

/-- C2 (amended): in the Transform stage, a method-adjusted stake strictly
below the configured minimum is clamped up to the minimum, one strictly
above the configured maximum is clamped down to the maximum, and in either
case the operation proceeds: whenever `minStake ≤ maxStake`, the stake
returned by `adjustStake` always passes `validateStakeLimits`, so
`copyOrder`'s "stake below minimum" rejection branch never fires. -/
theorem adjustStake_clamps (sCfg : StakeAdjustmentConfig) (s a : Nat)
    (hminmax : sCfg.minStake ≤ sCfg.maxStake)
    (hmethod : OrderCopyEngine.applyStakeAdjustmentMethod sCfg s = .ok a) :
    (a < sCfg.minStake → OrderCopyEngine.adjustStake sCfg s = .ok sCfg.minStake) ∧
    (sCfg.maxStake < a → OrderCopyEngine.adjustStake sCfg s = .ok sCfg.maxStake) ∧
    (∀ b, OrderCopyEngine.adjustStake sCfg s = .ok b →
      (validateStakeLimits b sCfg.minStake sCfg.maxStake).valid = true) := by
  unfold OrderCopyEngine.adjustStake
  rw [hmethod]
  refine ⟨?_, ?_, ?_⟩
  · intro hlt
    simp [validateStakeLimits, hlt]
  · intro hgt
    have hnl : ¬ a < sCfg.minStake := by omega
    simp [validateStakeLimits, hnl, hgt]
  · intro b hb
    by_cases h1 : a < sCfg.minStake
    · simp [validateStakeLimits, h1] at hb
      subst hb
      have h3 : ¬ sCfg.maxStake < sCfg.minStake := by omega
      simp [validateStakeLimits, Nat.lt_irrefl, h3]
    · by_cases h2 : sCfg.maxStake < a
      · simp [validateStakeLimits, h1, h2] at hb
        subst hb
        have h3 : ¬ sCfg.maxStake < sCfg.minStake := by omega
        simp [validateStakeLimits, Nat.lt_irrefl, h3]
      · simp [validateStakeLimits, h1, h2] at hb
        subst hb
        simp [validateStakeLimits, h1, h2]

/-- Witness for C2 (amended): the below-minimum stake 50 is clamped up to
the configured minimum 100. -/
theorem adjustStake_clamps_witness :
    plainCopyConfig.stakeAdjustment.minStake ≤
        plainCopyConfig.stakeAdjustment.maxStake ∧
      OrderCopyEngine.applyStakeAdjustmentMethod plainCopyConfig.stakeAdjustment 50 =
        .ok 50 ∧
      (50 : Nat) < plainCopyConfig.stakeAdjustment.minStake ∧
      OrderCopyEngine.adjustStake plainCopyConfig.stakeAdjustment 50 =
        .ok plainCopyConfig.stakeAdjustment.minStake :=
  ⟨by decide, by decide, by decide,
    (adjustStake_clamps plainCopyConfig.stakeAdjustment 50 50 (by decide)
        (by decide)).1 (by decide)⟩

/-- C6: Ledger atomicity on failure — when the copy operation fails at any
step (copying disabled, engine not initialized, adjustment or validation
failure, signing failure, submission exception or zero-insertion response),
`handleOrderDetected` leaves the ledger state completely unchanged: no
source mapping and no tracked order is created.  Conversely the state can
change only after `copyOrder` returned a successful result.  (`copyOrder`
itself never touches the ledger: its signature takes no `RiskState`.) -/
theorem failedCopy_leaves_ledger_unchanged (env : BotEnv) (st : RiskState)
    (e : DetectEvent) :
    ((SXMarketMakingBot.copyResultFor env e).success = false →
      SXMarketMakingBot.handleOrderDetected env st e = st) ∧
    (SXMarketMakingBot.handleOrderDetected env st e ≠ st →
      (SXMarketMakingBot.copyResultFor env e).success = true) := by
  have h1 : (SXMarketMakingBot.copyResultFor env e).success = false →
      SXMarketMakingBot.handleOrderDetected env st e = st := by
    intro hf
    unfold SXMarketMakingBot.handleOrderDetected
    by_cases hc : RiskManager.isOrderCopied st e.order.orderHash
    · simp [hc]
    · cases ho : (SXMarketMakingBot.copyResultFor env e).copiedOrder <;>
        cases hm : (SXMarketMakingBot.copyResultFor env e).modifications <;>
          simp [hc, hf, ho, hm]
  refine ⟨h1, fun hne => ?_⟩
  cases hs : (SXMarketMakingBot.copyResultFor env e).success with
  | true => rfl
  | false => exact absurd (h1 hs) hne

/-- Witness for C6: with copying disabled the copy fails and the ledger is
unchanged. -/
theorem failedCopy_witness :
    (SXMarketMakingBot.copyResultFor disabledEnv seenEvent).success = false ∧
      SXMarketMakingBot.handleOrderDetected disabledEnv emptyHashState seenEvent =
        emptyHashState :=
  ⟨by decide,
    (failedCopy_leaves_ledger_unchanged disabledEnv emptyHashState seenEvent).1
      (by decide)⟩

/-- A successful copy result always carries the copied order and the
modification summary (the shape produced by `copyOrder`'s success branch). -/
theorem copyResultFor_success_shape (env : BotEnv) (e : DetectEvent)
    (hs : (SXMarketMakingBot.copyResultFor env e).success = true) :
    (SXMarketMakingBot.copyResultFor env e).copiedOrder.isSome = true ∧
      (SXMarketMakingBot.copyResultFor env e).modifications.isSome = true := by
  revert hs
  unfold SXMarketMakingBot.copyResultFor OrderCopyEngine.copyOrder
    OrderCopyEngine.failResult
  repeat' split
  all_goals intro hs
  all_goals simp_all [apply_ite CopyResult.success, apply_ite CopyResult.copiedOrder,
    apply_ite CopyResult.modifications]

/-- `recordOrderMapping` always puts the source hash into the history. -/
theorem mem_recordOrderMapping (st : RiskState) (order : Order) (h : String) :
    h ∈ (RiskManager.recordOrderMapping st order h).originalOrderHistory := by
  unfold RiskManager.recordOrderMapping
  cases hm : mapGet st.ordersByOriginal h <;>
    by_cases hin : h ∈ st.originalOrderHistory <;> simp_all

/-- `handleOrderDetected` never removes a hash from the history. -/
theorem handleOrderDetected_history_mono (env : BotEnv) (st : RiskState)
    (e : DetectEvent) {h : String} (hmem : h ∈ st.originalOrderHistory) :
    h ∈ (SXMarketMakingBot.handleOrderDetected env st e).originalOrderHistory := by
  unfold SXMarketMakingBot.handleOrderDetected
  by_cases hc : RiskManager.isOrderCopied st e.order.orderHash
  · simpa [hc] using hmem
  · have hrec : ∀ copied : Order,
        h ∈ (RiskManager.recordOrderMapping st copied e.order.orderHash).originalOrderHistory := by
      intro copied
      simpa [applyRiskOp] using
        applyRiskOp_preserves_history hmem (RiskOp.recordOrderMapping copied e.order.orderHash)
    cases hsucc : (SXMarketMakingBot.copyResultFor env e).success <;>
      cases ho : (SXMarketMakingBot.copyResultFor env e).copiedOrder <;>
        cases hm : (SXMarketMakingBot.copyResultFor env e).modifications <;>
          simp [hc, hsucc, ho, hm, hrec, hmem]

/-- An event that creates a derived instruction records its source hash. -/
theorem derivedCreated_mem (env : BotEnv) (st : RiskState) (e : DetectEvent)
    (hcr : SXMarketMakingBot.derivedCreated env st e = true) :
    e.order.orderHash ∈
      (SXMarketMakingBot.handleOrderDetected env st e).originalOrderHistory := by
  unfold SXMarketMakingBot.derivedCreated SXMarketMakingBot.transformInvoked at hcr
  rw [Bool.and_eq_true] at hcr
  obtain ⟨hinv, hs⟩ := hcr
  have hc : ¬ RiskManager.isOrderCopied st e.order.orderHash := by
    cases hv : RiskManager.isOrderCopied st e.order.orderHash <;> simp_all
  obtain ⟨hco, hmo⟩ := copyResultFor_success_shape env e hs
  obtain ⟨copied, hcopied⟩ := Option.isSome_iff_exists.mp hco
  obtain ⟨modif, hmodif⟩ := Option.isSome_iff_exists.mp hmo
  unfold SXMarketMakingBot.handleOrderDetected
  simp only [hc, if_false, hs, hcopied, hmodif]
  exact mem_recordOrderMapping st copied e.order.orderHash

/-- Once the source hash is in the history, no later event for it creates a
derived instruction. -/
theorem createdCount_zero_of_mem (env : BotEnv) (h : String) :
    ∀ (evs : List DetectEvent) (st : RiskState), h ∈ st.originalOrderHistory →
      SXMarketMakingBot.createdCount env st h evs = 0 := by
  intro evs
  induction evs with
  | nil => intro st _; rfl
  | cons e es ih =>
    intro st hmem
    unfold SXMarketMakingBot.createdCount
    have hnc : ¬ (e.order.orderHash = h ∧
        SXMarketMakingBot.derivedCreated env st e = true) := by
      rintro ⟨heq, hcr⟩
      unfold SXMarketMakingBot.derivedCreated SXMarketMakingBot.transformInvoked at hcr
      have hcop : RiskManager.isOrderCopied st e.order.orderHash = true := by
        unfold RiskManager.isOrderCopied
        simp [heq, hmem]
      simp [hcop] at hcr
    rw [if_neg hnc, ih _ (handleOrderDetected_history_mono env st e hmem)]

/-- Once the source hash is in the history, no later event for it even
reaches the Transform stage. -/
theorem invokedCount_zero_of_mem (env : BotEnv) (h : String) :
    ∀ (evs : List DetectEvent) (st : RiskState), h ∈ st.originalOrderHistory →
      SXMarketMakingBot.invokedCount env st h evs = 0 := by
  intro evs
  induction evs with
  | nil => intro st _; rfl
  | cons e es ih =>
    intro st hmem
    unfold SXMarketMakingBot.invokedCount
    have hnc : ¬ (e.order.orderHash = h ∧
        SXMarketMakingBot.transformInvoked st e = true) := by
      rintro ⟨heq, hinv⟩
      unfold SXMarketMakingBot.transformInvoked at hinv
      have hcop : RiskManager.isOrderCopied st e.order.orderHash = true := by
        unfold RiskManager.isOrderCopied
        simp [heq, hmem]
      simp [hcop] at hinv
    rw [if_neg hnc, ih _ (handleOrderDetected_history_mono env st e hmem)]

/-- Over any event sequence and from any starting state, at most one event
per source hash creates a derived instruction. -/
theorem createdCount_le_one (env : BotEnv) (h : String)
    (evs : List DetectEvent) (st : RiskState) :
    SXMarketMakingBot.createdCount env st h evs ≤ 1 := by
  induction evs generalizing st with
  | nil => simp [SXMarketMakingBot.createdCount]
  | cons e es ih =>
    unfold SXMarketMakingBot.createdCount
    by_cases hcase : e.order.orderHash = h ∧
        SXMarketMakingBot.derivedCreated env st e = true
    · rw [if_pos hcase]
      have hmem : h ∈ (SXMarketMakingBot.handleOrderDetected env st e).originalOrderHistory := by
        rw [← hcase.1]
        exact derivedCreated_mem env st e hcase.2
      rw [createdCount_zero_of_mem env h es _ hmem]
    · rw [if_neg hcase]
      simpa using ih _

/-- `mapGet` misses exactly when the key is absent. -/
theorem mapGet_eq_none_iff {α : Type} (m : List (String × α)) (k : String) :
    mapGet m k = none ↔ k ∉ m.map Prod.fst := by
  induction m with
  | nil => simp [mapGet]
  | cons p rest ih =>
    obtain ⟨k', v⟩ := p
    by_cases hk : k' = k
    · subst hk
      simp [mapGet]
    · have hk' : ¬ k = k' := fun hcontra => hk hcontra.symm
      simp [mapGet, hk, hk', ih]

/-- Setting an absent key appends it to the key list. -/
theorem mapSet_keys_of_none {α : Type} {m : List (String × α)} {k : String}
    (v : α) (hnone : mapGet m k = none) :
    (mapSet m k v).map Prod.fst = m.map Prod.fst ++ [k] := by
  induction m with
  | nil => simp [mapSet]
  | cons p rest ih =>
    obtain ⟨k', w⟩ := p
    by_cases hk : k' = k
    · simp [mapGet, hk] at hnone
    · simp [mapGet, hk] at hnone
      simp [mapSet, hk, ih hnone]

/-- `recordOrderMapping` keeps the mapping keys unique: the ledger holds at
most one source → derived mapping per source hash. -/
theorem recordOrderMapping_keys_nodup {st : RiskState} {order : Order}
    {h : String} (hnd : (st.ordersByOriginal.map Prod.fst).Nodup) :
    (((RiskManager.recordOrderMapping st order h).ordersByOriginal).map Prod.fst).Nodup := by
  unfold RiskManager.recordOrderMapping
  cases hm : mapGet st.ordersByOriginal h with
  | some d => simpa using hnd
  | none =>
    simp only []
    rw [mapSet_keys_of_none order.orderHash hm]
    have hnot : h ∉ st.ordersByOriginal.map Prod.fst := (mapGet_eq_none_iff _ _).mp hm
    simp [List.nodup_append, hnd, hnot]

/-- `handleOrderDetected` keeps the mapping keys unique. -/
theorem handleOrderDetected_keys_nodup (env : BotEnv) (st : RiskState)
    (e : DetectEvent)
    (hnd : (st.ordersByOriginal.map Prod.fst).Nodup) :
    (((SXMarketMakingBot.handleOrderDetected env st e).ordersByOriginal).map Prod.fst).Nodup := by
  unfold SXMarketMakingBot.handleOrderDetected
  by_cases hc : RiskManager.isOrderCopied st e.order.orderHash
  · simpa [hc] using hnd
  · cases hsucc : (SXMarketMakingBot.copyResultFor env e).success <;>
      cases ho : (SXMarketMakingBot.copyResultFor env e).copiedOrder <;>
        cases hm : (SXMarketMakingBot.copyResultFor env e).modifications <;>
          simp [hc, hsucc, ho, hm, hnd, recordOrderMapping_keys_nodup]

/-- Any run of detected-order events keeps the mapping keys unique. -/
theorem runDetected_keys_nodup (env : BotEnv) (evs : List DetectEvent)
    (st : RiskState)
    (hnd : (st.ordersByOriginal.map Prod.fst).Nodup) :
    (((SXMarketMakingBot.runDetected env st evs).ordersByOriginal).map Prod.fst).Nodup := by
  induction evs generalizing st with
  | nil => simpa [SXMarketMakingBot.runDetected] using hnd
  | cons e es ih =>
    unfold SXMarketMakingBot.runDetected
    exact ih _ (handleOrderDetected_keys_nodup env st e hnd)

/-- C1: at-most-once copy — over any sequence of processed detected-order
events (including repeated deliveries of the same source instruction's
ACTIVE event) at most one derived instruction is ever created per source
hash; the mapping keys of the ledger stay unique, so it holds at most one
source → derived mapping per source hash; and once a copy of `h` has been
recorded (its hash is in the history), every later detected event for `h`
is skipped by the `isOrderCopied` check before the Transform stage is
invoked. -/
theorem atMostOnceCopy (env : BotEnv) (st : RiskState) (h : String)
    (evs : List DetectEvent) :
    SXMarketMakingBot.createdCount env st h evs ≤ 1 ∧
      (h ∈ st.originalOrderHistory →
        SXMarketMakingBot.invokedCount env st h evs = 0) ∧
      ((st.ordersByOriginal.map Prod.fst).Nodup →
        (((SXMarketMakingBot.runDetected env st evs).ordersByOriginal).map Prod.fst).Nodup) :=
  ⟨createdCount_le_one env h evs st,
    fun hmem => invokedCount_zero_of_mem env h evs st hmem,
    fun hnd => runDetected_keys_nodup env evs st hnd⟩

/-- Witness for C1: two repeated deliveries for the already-copied source
hash `"h0"` create nothing, never reach the Transform stage, and keep the
mapping keys unique. -/
theorem atMostOnceCopy_witness :
    "h0" ∈ seenState.originalOrderHistory ∧
      (seenState.ordersByOriginal.map Prod.fst).Nodup ∧
      SXMarketMakingBot.createdCount plainEnv seenState "h0" [seenEvent, seenEvent] ≤ 1 ∧
      SXMarketMakingBot.invokedCount plainEnv seenState "h0" [seenEvent, seenEvent] = 0 ∧
      (((SXMarketMakingBot.runDetected plainEnv seenState
            [seenEvent, seenEvent]).ordersByOriginal).map Prod.fst).Nodup :=
  ⟨by decide, by decide,
    (atMostOnceCopy plainEnv seenState "h0" [seenEvent, seenEvent]).1,
    (atMostOnceCopy plainEnv seenState "h0" [seenEvent, seenEvent]).2.1 (by decide),
    (atMostOnceCopy plainEnv seenState "h0" [seenEvent, seenEvent]).2.2 (by decide)⟩

/-- C3 counterexample: in the Ably `connected`-event handler the
`"connected"` notification is emitted at position 0, before any previously
registered channel is re-subscribed — here with one previously registered
channel `"c1"` whose re-subscription happens only later in the action
sequence. -/
theorem connected_emitted_before_resubscribe_counterexample :
    (WebSocketClient.onConnected ["c1"]).head? =
        some WebSocketClient.WsAction.emitConnected ∧
      "c1" ∈ (["c1"] : List String) ∧
      WebSocketClient.WsAction.subscribeChannel "c1" ∉
        (WebSocketClient.onConnected ["c1"]).take 0 ∧
      WebSocketClient.WsAction.subscribeChannel "c1" ∈
        WebSocketClient.onConnected ["c1"] := by
  decide

/-- C3 (amended): after a successful reconnect the `connected`-event handler
emits the `"connected"` notification first, and the re-subscription of every
previously registered channel happens strictly after that emission (and is
not awaited), so consumers are told "connected" before re-subscription is
complete. -/
theorem connected_emitted_first (chs : List String) (ch : String)
    (hch : ch ∈ chs) :
    (WebSocketClient.onConnected chs).head? =
        some WebSocketClient.WsAction.emitConnected ∧
      WebSocketClient.WsAction.subscribeChannel ch ∈
        (WebSocketClient.onConnected chs).tail := by
  refine ⟨rfl, ?_⟩
  unfold WebSocketClient.onConnected WebSocketClient.resubscribeChannels
  simpa using List.mem_map_of_mem WebSocketClient.WsAction.subscribeChannel hch

/-- Witness for C3 (amended) with two previously registered channels. -/
theorem connected_emitted_first_witness :
    "b" ∈ (["a", "b"] : List String) ∧
      ((WebSocketClient.onConnected ["a", "b"]).head? =
          some WebSocketClient.WsAction.emitConnected ∧
        WebSocketClient.WsAction.subscribeChannel "b" ∈
          (WebSocketClient.onConnected ["a", "b"]).tail) :=
  ⟨by decide, connected_emitted_first ["a", "b"] "b" (by decide)⟩

/-- C4: within one batch, updates are handled in ascending order of their
source-reported update time — the processing order is a permutation of the
batch, sorted by `updateTime`, and any update with a strictly smaller
update time is handled strictly earlier.  (No ordering is claimed across
batches.) -/
theorem handleOrderMessage_ordering (updates : List OrderUpdate) :
    List.Perm (OrderMonitor.handleOrderMessage updates) updates ∧
      List.Sorted OrderMonitor.updateTimeLe (OrderMonitor.handleOrderMessage updates) ∧
      ∀ i j : Fin (OrderMonitor.handleOrderMessage updates).length,
        ((OrderMonitor.handleOrderMessage updates).get i).updateTime <
            ((OrderMonitor.handleOrderMessage updates).get j).updateTime →
          i < j := by
  refine ⟨List.perm_insertionSort _ _, List.sorted_insertionSort _ _, ?_⟩
  intro i j hlt
  rcases lt_trichotomy i j with h | h | h
  · exact h
  · subst h
    exact absurd hlt (lt_irrefl _)
  · exfalso
    have hsorted :
        List.Sorted OrderMonitor.updateTimeLe (OrderMonitor.handleOrderMessage updates) :=
      List.sorted_insertionSort _ _
    have hle := hsorted.rel_get_of_lt h
    unfold OrderMonitor.updateTimeLe at hle
    omega

/-- Witness for C4: a two-update batch delivered out of order (times 5, 3)
is processed as times 3 then 5, and the strictly-earlier-time update is
handled strictly earlier. -/
theorem handleOrderMessage_ordering_witness :
    (OrderMonitor.handleOrderMessage sampleBatch).map OrderUpdate.updateTime = [3, 5] ∧
      ((⟨0, by decide⟩ : Fin (OrderMonitor.handleOrderMessage sampleBatch).length) <
        ⟨1, by decide⟩) :=
  ⟨by decide,
    (handleOrderMessage_ordering sampleBatch).2.2 ⟨0, by decide⟩ ⟨1, by decide⟩
      (by decide)⟩

/-- C5: event classification — `INACTIVE` always produces a cancellation
event and `FILLED` a fill event; an `ACTIVE` update with nonzero
`pendingFillAmount` is skipped with no event of any kind; an `ACTIVE`
update emits a detection (copy-candidate) event only if
`pendingFillAmount = 0`; a non-own `ACTIVE` update with nonzero
`fillAmount` is skipped as a stale resend; and a monitored-wallet
copy-candidate (`orderDetected`) implies `pendingFillAmount = 0`,
`fillAmount = 0` and a non-own account. -/
theorem processOrderUpdate_classification (u : OrderUpdate)
    (monitoredWallet selfWallet : String) (passesFilters : Bool) :
    (u.status = .INACTIVE → ∃ ev,
        OrderMonitor.processOrderUpdate u monitoredWallet selfWallet passesFilters =
            some ev ∧ ev.isCancellation = true) ∧
    (u.status = .FILLED → ∃ ev,
        OrderMonitor.processOrderUpdate u monitoredWallet selfWallet passesFilters =
            some ev ∧ ev.isFillEvent = true) ∧
    (u.status = .ACTIVE → u.order.pendingFillAmount ≠ 0 →
        OrderMonitor.processOrderUpdate u monitoredWallet selfWallet passesFilters = none) ∧
    (∀ ev, OrderMonitor.processOrderUpdate u monitoredWallet selfWallet passesFilters =
          some ev → ev.isDetection = true → u.order.pendingFillAmount = 0) ∧
    (u.status = .ACTIVE → monitoredWallet ≠ selfWallet → u.order.fillAmount ≠ 0 →
        OrderMonitor.processOrderUpdate u monitoredWallet selfWallet passesFilters = none) ∧
    (∀ o, OrderMonitor.processOrderUpdate u monitoredWallet selfWallet passesFilters =
          some (OrderMonitor.MonitorEvent.orderDetected o) →
        u.order.pendingFillAmount = 0 ∧ u.order.fillAmount = 0 ∧
          monitoredWallet ≠ selfWallet) := by
  refine ⟨?_, ?_, ?_, ?_, ?_, ?_⟩
  · intro hst
    refine ⟨OrderMonitor.handleOrderCancelled u.order monitoredWallet selfWallet, ?_, ?_⟩
    · unfold OrderMonitor.processOrderUpdate
      rw [hst]
    · unfold OrderMonitor.handleOrderCancelled
      split_ifs <;> rfl
  · intro hst
    refine ⟨OrderMonitor.handleOrderFilled u.order monitoredWallet selfWallet, ?_, ?_⟩
    · unfold OrderMonitor.processOrderUpdate
      rw [hst]
    · unfold OrderMonitor.handleOrderFilled
      split_ifs <;> rfl
  · intro hst hpend
    unfold OrderMonitor.processOrderUpdate
    rw [hst]
    unfold OrderMonitor.handleNewOrder
    rw [if_pos hpend]
  · intro ev hev hdet
    unfold OrderMonitor.processOrderUpdate at hev
    cases hstatus : u.status <;> rw [hstatus] at hev
    · unfold OrderMonitor.handleNewOrder at hev
      by_cases hpend : u.order.pendingFillAmount ≠ 0
      · rw [if_pos hpend] at hev
        exact Option.noConfusion hev
      · push_neg at hpend
        exact hpend
    · unfold OrderMonitor.handleOrderCancelled at hev
      split_ifs at hev <;> injection hev with hev' <;> subst hev' <;>
        simp [OrderMonitor.MonitorEvent.isDetection] at hdet
    · unfold OrderMonitor.handleOrderFilled at hev
      split_ifs at hev <;> injection hev with hev' <;> subst hev' <;>
        simp [OrderMonitor.MonitorEvent.isDetection] at hdet
  · intro hst hmw hfill
    unfold OrderMonitor.processOrderUpdate
    rw [hst]
    unfold OrderMonitor.handleNewOrder
    by_cases hpend : u.order.pendingFillAmount ≠ 0
    · rw [if_pos hpend]
    · rw [if_neg hpend, if_neg hmw, if_pos hfill]
  · intro o hev
    unfold OrderMonitor.processOrderUpdate OrderMonitor.handleNewOrder
      OrderMonitor.handleOrderCancelled OrderMonitor.handleOrderFilled at hev
    cases hstatus : u.status <;> rw [hstatus] at hev
    · split_ifs at hev <;> simp at hev
      simp_all
    · split_ifs at hev <;> simp at hev
    · split_ifs at hev <;> simp at hev

/-- Witness for C5: an `ACTIVE` non-own update with zero pending and fill
amounts that passes the filters is emitted as a copy candidate, and the
candidate implies the zero-amount side conditions. -/
theorem processOrderUpdate_classification_witness :
    OrderMonitor.processOrderUpdate
        { order := { belowMinOrder with orderHash := "u1" }
          status := .ACTIVE
          updateTime := 1 } "w" "s" true =
      some (OrderMonitor.MonitorEvent.orderDetected
        { belowMinOrder with orderHash := "u1" }) ∧
      (({ belowMinOrder with orderHash := "u1" } : Order).pendingFillAmount = 0 ∧
        ({ belowMinOrder with orderHash := "u1" } : Order).fillAmount = 0 ∧
        ("w" : String) ≠ "s") :=
  ⟨by decide,
    (processOrderUpdate_classification
        { order := { belowMinOrder with orderHash := "u1" }
          status := .ACTIVE
          updateTime := 1 } "w" "s" true).2.2.2.2.2
      { belowMinOrder with orderHash := "u1" } (by decide)⟩

end SxBot
